import Mathlib

/-! # Pipelined data-integrity worker (`dataIntegrity.cpp`)

A shallow embedding of `generateUniqueKey` and `redisWorker`: the batch composer
(read/write selection and Oracle bookkeeping), the drain loop with its
positional reply reconciliation, and the batching loop over `int` counters.

The worker's sources of nondeterminism (the results of `rand()`, the clock
readings, the outcomes of `redisGetReply`) are given as streams indexed by the
number of calls made so far, so a run is a function of those streams.

Conventions of the embedding:
* a `std::string` is a `String`, one character per byte; a `char*` payload is read
  through `cString`, which stops at the first NUL character;
* `int` values are `Int`s, and an operation that leaves the range of `int` (or any
  other undefined behaviour) ends the run with a `Fault`;
* the `double` quotient `rand() / RAND_MAX` is rounded as IEEE-754 binary64 does;
* the loop `for (i = 0; i < requestsPerIteration; i += pipelineDepth)` need not
  terminate, so it runs on fuel.
Connecting (`connectSingleRedis`) and the thread fan-out of `main` are not modelled.
-/

namespace DataIntegrity

/-! ## Strings and integers of the host language -/

/-- The conversion `std::string(const char*)` (also what `%s` and `operator<<` on a
`char*` read): the characters up to, and excluding, the first NUL character. -/
def cString (s : String) : String :=
  ⟨s.data.takeWhile (fun c => c != Char.ofNat 0)⟩

/-- Largest value of `int` (32 bits, as on the ABIs hiredis is built for). -/
def INT_MAX : Int := 2147483647

/-- Smallest value of `int`. -/
def INT_MIN : Int := -2147483648

/-- Ways in which an execution leaves defined behaviour (or the model runs out of fuel). -/
inductive Fault where
  | outOfFuel
  | signedOverflow
  | divideByZero
  | nullString
  | indexOutOfRange
  | lengthError
deriving DecidableEq, Repr

deriving instance DecidableEq for Except

/-! ## IEEE-754 binary64, as far as `rand() / RAND_MAX < writeRatio` needs it -/

/-- A `double`: a finite value `mant * 2 ^ exp`, an infinity, or a NaN. -/
inductive Double where
  | finite (mant : Int) (exp : Int)
  | inf (negative : Bool)
  | nan
deriving DecidableEq, Repr

namespace Double

/-- The comparison `a < b` on doubles (false whenever a NaN is involved). -/
def lt : Double → Double → Bool
  | finite m1 e1, finite m2 e2 =>
      decide (m1 * 2 ^ (e1 - min e1 e2).toNat < m2 * 2 ^ (e2 - min e1 e2).toNat)
  | nan, _ => false
  | _, nan => false
  | inf true, inf true => false
  | inf true, _ => true
  | inf false, _ => false
  | finite _ _, inf negative => !negative

/-- Least `k` (searching upwards from the given one) with `den * 2^52 ≤ num * 2^k`. -/
def scaleUp (num den : Nat) : Nat → Nat → Nat
  | 0, k => k
  | fuel + 1, k => if den * 2 ^ 52 ≤ num * 2 ^ k then k else scaleUp num den fuel (k + 1)

/-- Least `k` (searching upwards from the given one) with `num < den * 2^(53+k)`. -/
def scaleDown (num den : Nat) : Nat → Nat → Nat
  | 0, k => k
  | fuel + 1, k => if num < den * 2 ^ (53 + k) then k else scaleDown num den fuel (k + 1)

/-- The integer nearest to `num / den`, ties going to the even one. -/
def roundNearestEven (num den : Nat) : Nat :=
  if 2 * (num % den) < den then num / den
  else if den < 2 * (num % den) then num / den + 1
  else if (num / den) % 2 = 0 then num / den
  else num / den + 1

/-- The quotient `static_cast<double>(num) / den` of two non-negative `int`s (both exactly
representable): `num / den` rounded to a 53-bit significand, ties to even; `x / 0` is an
infinity and `0 / 0` a NaN. The exponent range is not bounded (the quotients of the
program lie between `2^-31` and `2^31`). -/
def ofRatio (num den : Nat) : Double :=
  if den = 0 then (if num = 0 then nan else inf false)
  else if num = 0 then finite 0 0
  else if num < den * 2 ^ 53 then
    finite (roundNearestEven (num * 2 ^ scaleUp num den (den + 53) 0) den)
      (-(scaleUp num den (den + 53) 0 : Int))
  else
    finite (roundNearestEven num (den * 2 ^ scaleDown num den num 1))
      (scaleDown num den num 1 : Int)

/-- The double `0.0`. -/
def zero : Double := finite 0 0

/-- The double `1.0`. -/
def one : Double := finite 1 0

end Double

/-! ## hiredis replies -/

/-- Modelled from the spec: the reply-type constants of `hiredis.h`, which is not part of
the repository; a value reply. -/
def REDIS_REPLY_STRING : Int := 1

/-- Modelled from the spec: reply type of an array reply (`hiredis.h`). -/
def REDIS_REPLY_ARRAY : Int := 2

/-- Modelled from the spec: reply type of an integer reply (`hiredis.h`). -/
def REDIS_REPLY_INTEGER : Int := 3

/-- Modelled from the spec: reply type of the "no value" reply (`hiredis.h`). -/
def REDIS_REPLY_NIL : Int := 4

/-- Modelled from the spec: reply type of a status/acknowledgment reply (`hiredis.h`). -/
def REDIS_REPLY_STATUS : Int := 5

/-- Modelled from the spec: reply type of an error reply (`hiredis.h`). -/
def REDIS_REPLY_ERROR : Int := 6

/-- Modelled from the spec: the two fields of hiredis's `redisReply` that the worker reads.
`str` is the payload buffer (`len` bytes, which may contain NUL characters, followed by a
terminating NUL), or `none` for a null pointer. -/
structure redisReply where
  type : Int
  str : Option String
deriving DecidableEq, Repr

/-- What hiredis guarantees of a reply it hands out, as far as the worker relies on it:
status and value replies carry a payload buffer. -/
def redisReply.hasPayload (reply : redisReply) : Prop :=
  (reply.type = REDIS_REPLY_STATUS ∨ reply.type = REDIS_REPLY_STRING) → reply.str ≠ none

instance (reply : redisReply) : Decidable reply.hasPayload := by
  unfold redisReply.hasPayload; infer_instance

/-! ## Data model -/

/-- Structure to record each command in a pipelined batch. -/
structure BatchCommand where
  isWrite : Bool
  key : String
  expectedValue : String
deriving DecidableEq, Repr

/-- One line written to `cerr`. -/
inductive Report where
  /-- "Error retrieving reply from Redis server." -/
  | transportError
  /-- "Invalid reply for SET command for key: ..." (status reply other than OK) -/
  | invalidSetReply (key response : String) (type : Int)
  /-- "Invalid reply type for SET command for key: ..." -/
  | invalidSetReplyType (key response : String) (type : Int)
  /-- "Data mismatch for key: ..." -/
  | dataMismatch (key expected response : String) (type : Int)
  /-- "Data missing for key: ..." -/
  | dataMissing (key expected : String) (type : Int)
  /-- "Invalid reply type for GET command for key: ..." -/
  | invalidGetReplyType (key expected response : String) (type : Int)
deriving DecidableEq, Repr

/-- The text of a report line. -/
def Report.text : Report → String
  | .transportError => "Error retrieving reply from Redis server."
  | .invalidSetReply key response type =>
      "Invalid reply for SET command for key: " ++ key ++ " | Expected: OK" ++
      " | Redis response: " ++ response ++ " [Detailed: reply type " ++ toString type ++ "]"
  | .invalidSetReplyType key response type =>
      "Invalid reply type for SET command for key: " ++ key ++ " | Expected: OK" ++
      " | Redis response: " ++ response ++ " [Detailed: reply type " ++ toString type ++ "]"
  | .dataMismatch key expected response type =>
      "Data mismatch for key: " ++ key ++ " | Expected: " ++ expected ++
      " | Redis response: " ++ response ++ " [Detailed: reply type " ++ toString type ++ "]"
  | .dataMissing key expected type =>
      "Data missing for key: " ++ key ++ " | Expected: " ++ expected ++
      " | Redis response: NIL" ++ " [Detailed: reply type " ++ toString type ++ "]"
  | .invalidGetReplyType key expected response type =>
      "Invalid reply type for GET command for key: " ++ key ++ " | Expected: " ++ expected ++
      " | Redis response: " ++ response ++ " [Detailed: reply type " ++ toString type ++ "]"

/-- The environment of one worker: `RAND_MAX` of the C library, and the streams of results
of its calls to `rand()`, to the clock (in milliseconds since the epoch) and to
`redisGetReply` (`none`: the call did not return `REDIS_OK`). -/
structure Env where
  RAND_MAX : Nat
  rand : Nat → Nat
  now_ms : Nat → Int
  redisGetReply : Nat → Option redisReply

/-- The state of one worker: the in-memory store, how many values it has consumed from each
stream of its environment, the commands appended to the connection's output buffer, and the
lines written to `cerr` and `cout`. -/
structure Worker where
  inMemoryData : List (String × String)
  randCalls : Nat
  clockCalls : Nat
  replyCalls : Nat
  appended : List (List String)
  cerr : List Report
  cout : List String
deriving DecidableEq, Repr

/-- A worker that has just connected. -/
def Worker.init : Worker :=
  { inMemoryData := [], randCalls := 0, clockCalls := 0, replyCalls := 0,
    appended := [], cerr := [], cout := [] }

/-! ## Key generation and batch composition -/

/-- The text `"key_" << now_ms << "_" << r` built by `generateUniqueKey`. -/
def keyText (now_ms : Int) (r : Nat) : String :=
  "key_" ++ toString now_ms ++ "_" ++ toString r

/-- Generate a unique key using a timestamp and a random number. -/
def generateUniqueKey (env : Env) (st : Worker) : String × Worker :=
  let now_ms := env.now_ms st.clockCalls
  let r := env.rand st.randCalls
  (keyText now_ms r, { st with clockCalls := st.clockCalls + 1, randCalls := st.randCalls + 1 })

/-- One round of the loop that queues commands (lines 74-102): draw, decide between write
and read, update the in-memory store, append the command and record it. The two faults are
the undefined behaviours of `rand() % inMemoryData.size()` on an empty store and of
`inMemoryData[index]` outside the store. -/
def composeSlot (env : Env) (writeRatio : Double) (st : Worker)
    (batchCommands : List BatchCommand) : Except Fault (Worker × List BatchCommand) :=
  let rnd := Double.ofRatio (env.rand st.randCalls) env.RAND_MAX
  let st := { st with randCalls := st.randCalls + 1 }
  let isWrite := Double.lt rnd writeRatio || st.inMemoryData.isEmpty
  if isWrite then
    let (key, st) := generateUniqueKey env st
    let value := "value_" ++ key
    let st := { st with
      inMemoryData := st.inMemoryData ++ [(key, value)],
      appended := st.appended ++ [["SET", cString key, cString value]] }
    .ok (st, batchCommands ++ [{ isWrite := true, key := key, expectedValue := "" }])
  else if st.inMemoryData.length = 0 then .error .divideByZero
  else
    let index := env.rand st.randCalls % st.inMemoryData.length
    let st := { st with randCalls := st.randCalls + 1 }
    match st.inMemoryData[index]? with
    | none => .error .indexOutOfRange
    | some entry =>
      let st := { st with appended := st.appended ++ [["GET", cString entry.1]] }
      .ok (st, batchCommands ++
        [{ isWrite := false, key := entry.1, expectedValue := entry.2 }])

/-- The loop `for (j = 0; j < currentBatch; ++j)` that queues commands; the first argument
is the number of rounds still to run. -/
def composeLoop (env : Env) (writeRatio : Double) :
    Nat → Worker → List BatchCommand → Except Fault (Worker × List BatchCommand)
  | 0, st, batchCommands => .ok (st, batchCommands)
  | n + 1, st, batchCommands =>
    match composeSlot env writeRatio st batchCommands with
    | .error e => .error e
    | .ok (st1, batchCommands1) => composeLoop env writeRatio n st1 batchCommands1

/-! ## Reconciliation and the drain loop -/

/-- The classification of one reply against its command (lines 114-159): the lines it
writes to `cerr`. Reading the payload of a status or value reply whose `str` is null is
undefined behaviour. -/
def reconcile (cmd : BatchCommand) (reply : redisReply) : Except Fault (List Report) :=
  if cmd.isWrite then
    if reply.type = REDIS_REPLY_STATUS then
      match reply.str with
      | none => .error .nullString
      | some s =>
        if cString s ≠ "OK" then .ok [.invalidSetReply cmd.key (cString s) reply.type]
        else .ok []
    else
      let redisResp :=
        match reply.str with
        | some s => if reply.type = REDIS_REPLY_ERROR then cString s else toString reply.type
        | none => toString reply.type
      .ok [.invalidSetReplyType cmd.key redisResp reply.type]
  else
    if reply.type = REDIS_REPLY_STRING then
      match reply.str with
      | none => .error .nullString
      | some s =>
        let returnedValue := cString s
        if returnedValue ≠ cmd.expectedValue then
          .ok [.dataMismatch cmd.key cmd.expectedValue returnedValue reply.type]
        else .ok []
    else if reply.type = REDIS_REPLY_NIL then
      .ok [.dataMissing cmd.key cmd.expectedValue reply.type]
    else
      let redisResp :=
        match reply.str with
        | some s => cString s
        | none => toString reply.type
      .ok [.invalidGetReplyType cmd.key cmd.expectedValue redisResp reply.type]

/-- The loop `for (j = 0; j < currentBatch; ++j)` that reads the replies (lines 106-161);
the first argument is the number of rounds still to run, the second is `j`. A failed
receive is reported and the loop continues with the next `j`; `batchCommands[j]` outside
the list is undefined behaviour. -/
def drainLoop (env : Env) (batchCommands : List BatchCommand) :
    Nat → Nat → Worker → Except Fault Worker
  | 0, _, st => .ok st
  | n + 1, j, st =>
    match env.redisGetReply st.replyCalls with
    | none =>
      drainLoop env batchCommands n (j + 1)
        { st with replyCalls := st.replyCalls + 1, cerr := st.cerr ++ [.transportError] }
    | some reply =>
      match batchCommands[j]? with
      | none => .error .indexOutOfRange
      | some cmd =>
        match reconcile cmd reply with
        | .error e => .error e
        | .ok reports =>
          drainLoop env batchCommands n (j + 1)
            { st with replyCalls := st.replyCalls + 1, cerr := st.cerr ++ reports }

/-! ## The batching loop and the worker -/

/-- The loop `for (int i = 0; i < requestsPerIteration; i += pipelineDepth)` (lines 66-162),
from the given `i`; the first argument bounds the number of rounds. `reserve` of a negative
size throws `std::length_error`, and `i += pipelineDepth` beyond `INT_MAX` is undefined
behaviour. -/
def batchLoop (env : Env) (writeRatio : Double) (requestsPerIteration pipelineDepth : Int) :
    Nat → Int → Worker → Except Fault Worker
  | 0, _, _ => .error .outOfFuel
  | fuel + 1, i, st =>
    if i < requestsPerIteration then
      let currentBatch := min pipelineDepth (requestsPerIteration - i)
      if currentBatch < 0 then .error .lengthError
      else
        match composeLoop env writeRatio currentBatch.toNat st [] with
        | .error e => .error e
        | .ok (st1, batchCommands) =>
          match drainLoop env batchCommands currentBatch.toNat 0 st1 with
          | .error e => .error e
          | .ok st2 =>
            if INT_MAX < i + pipelineDepth then .error .signedOverflow
            else
              batchLoop env writeRatio requestsPerIteration pipelineDepth fuel
                (i + pipelineDepth) st2
    else .ok st

/-- The loop `for (int iter = 0; iter < iterations; ++iter)` (lines 59-163); the first
argument after the fuel is the number of rounds still to run, the next one is `iter`. -/
def iterationLoop (env : Env) (writeRatio : Double) (requestsPerIteration pipelineDepth : Int)
    (fuel : Nat) : Nat → Nat → Worker → Except Fault Worker
  | 0, _, st => .ok st
  | n + 1, iter, st =>
    match batchLoop env writeRatio requestsPerIteration pipelineDepth fuel 0
        { st with cout := st.cout ++ ["Iteration: " ++ toString (iter + 1)] } with
    | .error e => .error e
    | .ok st1 => iterationLoop env writeRatio requestsPerIteration pipelineDepth fuel n (iter + 1) st1

/-- Worker function that performs pipelined requests and maintains an in-memory key-value
store, once connected. `fuel` bounds the number of batches of one iteration;
`totalRequests / iterations` is the truncating division of `int`. -/
def redisWorker (env : Env) (fuel : Nat) (totalRequests pipelineDepth : Int)
    (writeRatio : Double) (iterations : Int) : Except Fault Worker :=
  if iterations = 0 then .error .divideByZero
  else if totalRequests = INT_MIN ∧ iterations = -1 then .error .signedOverflow
  else
    iterationLoop env writeRatio (Int.tdiv totalRequests iterations) pipelineDepth fuel
      iterations.toNat 0 Worker.init

/-! ## Vocabulary of the statements -/

/-- The decision `isWrite` of a round of the composing loop started in state `st`. -/
def slotIsWrite (env : Env) (writeRatio : Double) (st : Worker) : Bool :=
  Double.lt (Double.ofRatio (env.rand st.randCalls) env.RAND_MAX) writeRatio ||
    st.inMemoryData.isEmpty

/-- The key generated by a write round started in state `st`: the clock reading and the
random value that follows the round's draw. -/
def slotKey (env : Env) (st : Worker) : String :=
  keyText (env.now_ms st.clockCalls) (env.rand (st.randCalls + 1))

/-- The index chosen by a read round started in state `st`. -/
def slotIndex (env : Env) (st : Worker) : Nat :=
  env.rand (st.randCalls + 1) % st.inMemoryData.length

/-- Every entry of the in-memory store holds the value derived from its key. -/
def OracleDerived (st : Worker) : Prop :=
  ∀ entry ∈ st.inMemoryData, entry.2 = "value_" ++ entry.1

/-- What one round of the drain loop writes to `cerr` for the command at its position,
given the outcome of its `redisGetReply`. -/
def slotReports (cmd : BatchCommand) : Option redisReply → List Report
  | none => [.transportError]
  | some reply =>
    match reconcile cmd reply with
    | .ok reports => reports
    | .error _ => []

/-- The outcomes of the `n` calls to `redisGetReply` that follow the first `base` ones. -/
def nextReplies (env : Env) (base n : Nat) : List (Option redisReply) :=
  (List.range n).map (fun k => env.redisGetReply (base + k))

/-- The keys recorded in the in-memory store, oldest first. -/
def Worker.keys (st : Worker) : List String :=
  st.inMemoryData.map Prod.fst

/-- Every recorded key was generated from a clock reading and a random value of the
environment: the `c`-th entry from the `c`-th clock reading and from the random value
number `idx[c]`, where `idx` is strictly increasing and stays below the number of values
consumed so far. -/
def KeysGenerated (env : Env) (st : Worker) : Prop :=
  ∃ idx : List Nat, idx.length = st.inMemoryData.length ∧
    st.inMemoryData.length = st.clockCalls ∧
    idx.Pairwise (fun a b => a < b) ∧ (∀ i ∈ idx, i < st.randCalls) ∧
    ∀ c entry i, st.inMemoryData[c]? = some entry → idx[c]? = some i →
      entry.1 = keyText (env.now_ms c) (env.rand i)

/-- An environment whose clock stands still and whose random values repeat: every draw is
`1` and every key generation sees the reading `5` and the random value `7`. -/
def repeatingEnv : Env where
  RAND_MAX := 2147483647
  rand := fun n => if n % 2 = 0 then 1 else 7
  now_ms := fun _ => 5
  redisGetReply := fun _ => some { type := REDIS_REPLY_STATUS, str := some "OK" }

/-- An environment whose clock advances by one millisecond per reading, whose random values
are all different, and whose store acknowledges every command with the status `OK`. -/
def tickingEnv : Env where
  RAND_MAX := 2147483647
  rand := fun n => n
  now_ms := fun c => 1700000000000 + c
  redisGetReply := fun _ => some { type := REDIS_REPLY_STATUS, str := some "OK" }

/-- The NUL character. -/
def nul : String := String.singleton (Char.ofNat 0)

/-- An environment in which the second draw of the run returns `RAND_MAX`: the random values
are `0, 1, RAND_MAX, 3, 4, ...`, the clock ticks, and the store acknowledges every command
with the status `OK`. -/
def maxDrawEnv : Env where
  RAND_MAX := 2147483647
  rand := fun n => if n = 2 then 2147483647 else n
  now_ms := fun c => 1700000000000 + c
  redisGetReply := fun _ => some { type := REDIS_REPLY_STATUS, str := some "OK" }

/-- An environment whose store answers the first four commands of the run with: the status
`OK`, the "no value" reply, a failed receive, and the value `value_key_1700000000000_1`. -/
def lossyEnv : Env where
  RAND_MAX := 2147483647
  rand := fun n => n
  now_ms := fun c => 1700000000000 + c
  redisGetReply := fun n =>
    if n = 0 then some { type := REDIS_REPLY_STATUS, str := some "OK" }
    else if n = 1 then some { type := REDIS_REPLY_NIL, str := none }
    else if n = 2 then none
    else some { type := REDIS_REPLY_STRING, str := some "value_key_1700000000000_1" }

/-- The batch composed from the empty store with write ratio 0.0 in `lossyEnv`: one write
and three reads of the key written. -/
def lossyBatch : List BatchCommand :=
  [{ isWrite := true, key := "key_1700000000000_1", expectedValue := "" },
   { isWrite := false, key := "key_1700000000000_1",
     expectedValue := "value_key_1700000000000_1" },
   { isWrite := false, key := "key_1700000000000_1",
     expectedValue := "value_key_1700000000000_1" },
   { isWrite := false, key := "key_1700000000000_1",
     expectedValue := "value_key_1700000000000_1" }]

/-- The state of the worker after composing `lossyBatch` from `Worker.init`. -/
def lossyState : Worker :=
  { inMemoryData := [("key_1700000000000_1", "value_key_1700000000000_1")],
    randCalls := 8, clockCalls := 1, replyCalls := 0,
    appended := [["SET", "key_1700000000000_1", "value_key_1700000000000_1"],
      ["GET", "key_1700000000000_1"], ["GET", "key_1700000000000_1"],
      ["GET", "key_1700000000000_1"]],
    cerr := [], cout := [] }

/-- An environment whose store acknowledges the first command with the status `OK` and
answers every later one with the value `value_key_1700000000000_1` followed by a NUL
character and the byte `X`. -/
def nulEnv : Env where
  RAND_MAX := 2147483647
  rand := fun n => n
  now_ms := fun c => 1700000000000 + c
  redisGetReply := fun n =>
    if n = 0 then some { type := REDIS_REPLY_STATUS, str := some "OK" }
    else some { type := REDIS_REPLY_STRING,
                str := some ("value_key_1700000000000_1" ++ nul ++ "X") }

/-- The batch composed from `Worker.init` with write ratio 1.0 in `tickingEnv`: two writes. -/
def tickingBatch : List BatchCommand :=
  [{ isWrite := true, key := "key_1700000000000_1", expectedValue := "" },
   { isWrite := true, key := "key_1700000000001_3", expectedValue := "" }]

/-- The state of the worker after composing `tickingBatch` from `Worker.init`. -/
def tickingState : Worker :=
  { inMemoryData := [("key_1700000000000_1", "value_key_1700000000000_1"),
      ("key_1700000000001_3", "value_key_1700000000001_3")],
    randCalls := 4, clockCalls := 2, replyCalls := 0,
    appended := [["SET", "key_1700000000000_1", "value_key_1700000000000_1"],
      ["SET", "key_1700000000001_3", "value_key_1700000000001_3"]],
    cerr := [], cout := [] }

/-- The number a list of decimal digit characters stands for. -/
def digitsValue (l : List Char) : Nat :=
  l.foldl (fun acc c => 10 * acc + (c.toNat - 48)) 0

/-! # Theorems -/

/-! ## Decimal rendering -/

theorem digitChar_isDigit (k : Nat) (hk : k < 10) :
    (Nat.digitChar k).isDigit = true ∧ (Nat.digitChar k).toNat - 48 = k := by
  interval_cases k <;> decide

theorem digitsValue_append_singleton (l : List Char) (c : Char) :
    digitsValue (l ++ [c]) = 10 * digitsValue l + (c.toNat - 48) := by
  simp [digitsValue, List.foldl_append]

theorem toDigitsCore_spec : ∀ (fuel n : Nat) (ds : List Char), n < fuel →
    ∃ l : List Char, Nat.toDigitsCore 10 fuel n ds = l ++ ds ∧
      (∀ c ∈ l, c.isDigit = true) ∧ digitsValue l = n ∧ l ≠ [] := by
  intro fuel
  induction fuel with
  | zero => intro n ds h; omega
  | succ fuel ih =>
    intro n ds h
    have hd := digitChar_isDigit (n % 10) (Nat.mod_lt _ (by decide))
    by_cases h0 : n / 10 = 0
    · refine ⟨[Nat.digitChar (n % 10)], ?_, ?_, ?_, by simp⟩
      · simp [Nat.toDigitsCore, h0]
      · intro c hc
        simp only [List.mem_singleton] at hc
        rw [hc]; exact hd.1
      · have : digitsValue [Nat.digitChar (n % 10)] = (Nat.digitChar (n % 10)).toNat - 48 := by
          simp [digitsValue]
        rw [this, hd.2]; omega
    · obtain ⟨l, hl, hdig, hval, _⟩ := ih (n / 10) (Nat.digitChar (n % 10) :: ds) (by omega)
      refine ⟨l ++ [Nat.digitChar (n % 10)], ?_, ?_, ?_, by simp⟩
      · simp [Nat.toDigitsCore, h0, hl]
      · intro c hc
        rcases List.mem_append.1 hc with hc | hc
        · exact hdig c hc
        · simp only [List.mem_singleton] at hc
          rw [hc]; exact hd.1
      · rw [digitsValue_append_singleton, hval, hd.2]; omega

theorem natRepr_spec (n : Nat) :
    (∀ c ∈ (toString n).data, c.isDigit = true) ∧ digitsValue (toString n).data = n ∧
      (toString n).data ≠ [] := by
  obtain ⟨l, hl, hdig, hval, hne⟩ := toDigitsCore_spec (n + 1) n [] (Nat.lt_succ_self n)
  have h : (toString n).data = l := by
    show (Nat.repr n).data = l
    simp [Nat.repr, Nat.toDigits, hl, List.asString]
  rw [h]; exact ⟨hdig, hval, hne⟩

theorem natRepr_injective (a b : Nat) (h : toString a = toString b) : a = b := by
  have ha := (natRepr_spec a).2.1
  have hb := (natRepr_spec b).2.1
  rw [h] at ha
  omega

theorem intRepr_data (a : Int) :
    (toString a).data = (if a < 0 then ['-'] else []) ++ (toString a.natAbs).data := by
  cases a with
  | ofNat m => simp [toString, instToStringInt]
  | negSucc m =>
    show ("-" ++ toString (Nat.succ m)).data = _
    simp [Int.negSucc_lt_zero, Int.natAbs]

theorem intRepr_injective (a b : Int) (h : toString a = toString b) : a = b := by
  have hd := congrArg String.data h
  rw [intRepr_data, intRepr_data] at hd
  have ha := natRepr_spec a.natAbs
  have hb := natRepr_spec b.natAbs
  have hneg : ∀ (n : Nat) (l : List Char), (toString n).data ≠ '-' :: l := by
    intro n l hl
    have := (natRepr_spec n).1 '-' (by rw [hl]; simp)
    exact absurd this (by decide)
  by_cases h1 : a < 0 <;> by_cases h2 : b < 0 <;> simp only [h1, h2, if_true, if_false,
    List.nil_append, List.singleton_append, List.cons.injEq, true_and] at hd
  · have := natRepr_injective _ _ (String.ext hd)
    omega
  · exact absurd hd.symm (hneg _ _)
  · exact absurd hd (hneg _ _)
  · have := natRepr_injective _ _ (String.ext hd)
    omega

theorem intRepr_chars (a : Int) (c : Char) (hc : c ∈ (toString a).data) :
    c = '-' ∨ c.isDigit = true := by
  rw [intRepr_data] at hc
  rcases List.mem_append.1 hc with hc | hc
  · left
    by_cases h : a < 0 <;> simp [h] at hc
    exact hc
  · right; exact (natRepr_spec _).1 c hc

theorem append_sep_injective {α : Type} (sep : α) :
    ∀ (l1 l2 r1 r2 : List α), sep ∉ l1 → sep ∉ l2 →
      l1 ++ sep :: r1 = l2 ++ sep :: r2 → l1 = l2 ∧ r1 = r2 := by
  intro l1
  induction l1 with
  | nil =>
    intro l2 r1 r2 _ h2 h
    cases l2 with
    | nil => simpa using h
    | cons x l2 =>
      simp only [List.nil_append, List.cons_append, List.cons.injEq] at h
      exact absurd (by simp [h.1]) h2
  | cons y l1 ih =>
    intro l2 r1 r2 h1 h2 h
    cases l2 with
    | nil =>
      simp only [List.nil_append, List.cons_append, List.cons.injEq] at h
      exact absurd (by simp [h.1]) h1
    | cons x l2 =>
      simp only [List.cons_append, List.cons.injEq] at h
      have := ih l2 r1 r2 (fun hm => h1 (List.mem_cons_of_mem _ hm))
        (fun hm => h2 (List.mem_cons_of_mem _ hm)) h.2
      exact ⟨by rw [h.1, this.1], this.2⟩

theorem keyText_data (a : Int) (r : Nat) :
    (keyText a r).data = "key_".data ++ ((toString a).data ++ '_' :: (toString r).data) := by
  simp [keyText, String.data_append]

theorem keyText_injective (a b : Int) (r s : Nat) (h : keyText a r = keyText b s) :
    a = b ∧ r = s := by
  have hd := congrArg String.data h
  rw [keyText_data, keyText_data] at hd
  have hd := List.append_cancel_left hd
  have hsep : ∀ x : Int, '_' ∉ (toString x).data := by
    intro x hx
    rcases intRepr_chars x _ hx with h | h
    · exact absurd h (by decide)
    · exact absurd h (by decide)
  obtain ⟨h1, h2⟩ := append_sep_injective '_' _ _ _ _ (hsep a) (hsep b) hd
  exact ⟨intRepr_injective _ _ (String.ext h1), natRepr_injective _ _ (String.ext h2)⟩

theorem cString_of_no_nul (s : String) (h : ∀ c ∈ s.data, c ≠ Char.ofNat 0) : cString s = s := by
  unfold cString
  apply String.ext
  show s.data.takeWhile _ = s.data
  rw [List.takeWhile_eq_self_iff]
  intro c hc
  simpa using h c hc

theorem keyText_no_nul (a : Int) (r : Nat) : ∀ c ∈ (keyText a r).data, c ≠ Char.ofNat 0 := by
  intro c hc h0
  rw [keyText_data] at hc
  subst h0
  rcases List.mem_append.1 hc with hc | hc
  · exact absurd hc (by decide)
  · rcases List.mem_append.1 hc with hc | hc
    · rcases intRepr_chars a _ hc with h | h
      · exact absurd h (by decide)
      · exact absurd h (by decide)
    · rcases List.mem_cons.1 hc with hc | hc
      · exact absurd hc (by decide)
      · exact absurd ((natRepr_spec r).1 _ hc) (by decide)

theorem cString_keyText (a : Int) (r : Nat) : cString (keyText a r) = keyText a r :=
  cString_of_no_nul _ (keyText_no_nul a r)

theorem cString_value_keyText (a : Int) (r : Nat) :
    cString ("value_" ++ keyText a r) = "value_" ++ keyText a r := by
  apply cString_of_no_nul
  intro c hc h0
  rw [String.data_append] at hc
  subst h0
  rcases List.mem_append.1 hc with hc | hc
  · exact absurd hc (by decide)
  · exact keyText_no_nul a r _ hc rfl

/-! ## The composing loop -/

theorem composeSlot_write (env : Env) (w : Double) (st : Worker) (cmds : List BatchCommand)
    (h : slotIsWrite env w st = true) :
    composeSlot env w st cmds = .ok
      ({ st with
          inMemoryData := st.inMemoryData ++ [(slotKey env st, "value_" ++ slotKey env st)],
          randCalls := st.randCalls + 2,
          clockCalls := st.clockCalls + 1,
          appended := st.appended ++ [["SET", slotKey env st, "value_" ++ slotKey env st]] },
        cmds ++ [{ isWrite := true, key := slotKey env st, expectedValue := "" }]) := by
  unfold slotIsWrite at h
  simp only [composeSlot, generateUniqueKey, h, if_true, slotKey, cString_keyText,
    cString_value_keyText]

theorem composeSlot_read (env : Env) (w : Double) (st : Worker) (cmds : List BatchCommand)
    (h : slotIsWrite env w st = false) :
    ∃ entry, st.inMemoryData[slotIndex env st]? = some entry ∧
      slotIndex env st < st.inMemoryData.length ∧
      composeSlot env w st cmds = .ok
        ({ st with
            randCalls := st.randCalls + 2,
            appended := st.appended ++ [["GET", cString entry.1]] },
          cmds ++ [{ isWrite := false, key := entry.1, expectedValue := entry.2 }]) := by
  unfold slotIsWrite at h
  have hne : st.inMemoryData ≠ [] := by
    intro hnil
    simp [hnil] at h
  have hlen : 0 < st.inMemoryData.length := List.length_pos.2 hne
  have hidx : slotIndex env st < st.inMemoryData.length := Nat.mod_lt _ hlen
  refine ⟨st.inMemoryData[slotIndex env st], by simp [hidx], hidx, ?_⟩
  have hget : st.inMemoryData[env.rand (st.randCalls + 1) % st.inMemoryData.length]? =
      some st.inMemoryData[slotIndex env st] := by
    show st.inMemoryData[slotIndex env st]? = _
    simp [hidx]
  simp only [composeSlot, h, Bool.false_eq_true, if_false, Nat.ne_of_gt hlen, hget]

theorem composeSlot_total (env : Env) (w : Double) (st : Worker) (cmds : List BatchCommand) :
    ∃ st1 cmd, composeSlot env w st cmds = .ok (st1, cmds ++ [cmd]) := by
  cases h : slotIsWrite env w st with
  | true => exact ⟨_, _, composeSlot_write env w st cmds h⟩
  | false =>
    obtain ⟨entry, _, _, hc⟩ := composeSlot_read env w st cmds h
    exact ⟨_, _, hc⟩

theorem composeLoop_total (env : Env) (w : Double) :
    ∀ (n : Nat) (st : Worker) (cmds : List BatchCommand),
      ∃ st1 cmds1, composeLoop env w n st cmds = .ok (st1, cmds1) ∧
        cmds1.length = cmds.length + n := by
  intro n
  induction n with
  | zero => intro st cmds; exact ⟨st, cmds, rfl, rfl⟩
  | succ n ih =>
    intro st cmds
    obtain ⟨st1, cmd, h1⟩ := composeSlot_total env w st cmds
    obtain ⟨st2, cmds2, h2, hlen⟩ := ih st1 (cmds ++ [cmd])
    refine ⟨st2, cmds2, ?_, ?_⟩
    · simp only [composeLoop, h1, h2]
    · rw [hlen]; simp; omega

/-! ## Reconciliation and the drain loop -/

theorem reconcile_ok_of_hasPayload (cmd : BatchCommand) (reply : redisReply)
    (h : reply.hasPayload) : ∃ reports, reconcile cmd reply = .ok reports := by
  unfold redisReply.hasPayload at h
  unfold reconcile
  cases hs : reply.str with
  | some s => simp only []; split_ifs <;> exact ⟨_, rfl⟩
  | none =>
    have h1 : reply.type ≠ REDIS_REPLY_STATUS := fun ht => h (Or.inl ht) hs
    have h2 : reply.type ≠ REDIS_REPLY_STRING := fun ht => h (Or.inr ht) hs
    simp only [h1, h2, if_false]
    split_ifs <;> exact ⟨_, rfl⟩

theorem nextReplies_succ (env : Env) (base n : Nat) :
    nextReplies env base (n + 1) = env.redisGetReply base :: nextReplies env (base + 1) n := by
  unfold nextReplies
  rw [List.range_succ_eq_map]
  simp only [List.map_cons, List.map_map, Nat.add_zero, List.cons.injEq, true_and]
  apply List.map_congr_left
  intro k _
  simp only [Function.comp, Nat.succ_eq_add_one]
  congr 1
  omega

theorem nextReplies_length (env : Env) (base n : Nat) : (nextReplies env base n).length = n := by
  simp [nextReplies]

theorem nextReplies_getElem? (env : Env) (base n j : Nat) (hj : j < n) :
    (nextReplies env base n)[j]? = some (env.redisGetReply (base + j)) := by
  simp [nextReplies, hj]

theorem drainLoop_spec (env : Env) (cmds : List BatchCommand) :
    ∀ (n j : Nat) (st : Worker), j + n ≤ cmds.length →
      (∀ k reply, k < n → env.redisGetReply (st.replyCalls + k) = some reply →
        reply.hasPayload) →
      drainLoop env cmds n j st = .ok
        { st with
            replyCalls := st.replyCalls + n,
            cerr := st.cerr ++
              (List.zipWith slotReports (cmds.drop j) (nextReplies env st.replyCalls n)).flatten } := by
  intro n
  induction n with
  | zero =>
    intro j st _ _
    simp [drainLoop, nextReplies]
  | succ n ih =>
    intro j st hj hpay
    have hjlt : j < cmds.length := by omega
    have hdrop : cmds.drop j = cmds[j] :: cmds.drop (j + 1) := List.drop_eq_getElem_cons hjlt
    have hget : cmds[j]? = some cmds[j] := by simp [hjlt]
    rw [nextReplies_succ, hdrop, List.zipWith_cons_cons, List.flatten_cons]
    cases hr : env.redisGetReply st.replyCalls with
    | none =>
      have hpay1 : ∀ k reply, k < n →
          env.redisGetReply (st.replyCalls + 1 + k) = some reply → reply.hasPayload := by
        intro k reply hk hrk
        exact hpay (k + 1) reply (by omega) (by rw [← hrk]; congr 1; omega)
      simp only [drainLoop, hr]
      rw [ih (j + 1) _ (by omega) hpay1]
      simp [slotReports, Nat.add_assoc, Nat.add_comm 1 n]
    | some reply =>
      obtain ⟨reports, hrec⟩ := reconcile_ok_of_hasPayload cmds[j] reply
        (hpay 0 reply (by omega) (by simpa using hr))
      have hpay1 : ∀ k reply, k < n →
          env.redisGetReply (st.replyCalls + 1 + k) = some reply → reply.hasPayload := by
        intro k reply hk hrk
        exact hpay (k + 1) reply (by omega) (by rw [← hrk]; congr 1; omega)
      simp only [drainLoop, hr, hget, hrec]
      rw [ih (j + 1) _ (by omega) hpay1]
      simp [slotReports, hrec, Nat.add_assoc, Nat.add_comm 1 n]

/-! ## Frame properties and invariants of the loops -/

theorem drainLoop_frame (env : Env) (cmds : List BatchCommand) :
    ∀ (n j : Nat) (st st1 : Worker), drainLoop env cmds n j st = .ok st1 →
      st1.inMemoryData = st.inMemoryData ∧ st1.randCalls = st.randCalls ∧
      st1.clockCalls = st.clockCalls ∧ st1.appended = st.appended ∧ st1.cout = st.cout ∧
      st1.replyCalls = st.replyCalls + n := by
  intro n
  induction n with
  | zero =>
    intro j st st1 h
    simp only [drainLoop, Except.ok.injEq] at h
    subst h
    simp
  | succ n ih =>
    intro j st st1 h
    unfold drainLoop at h
    cases hr : env.redisGetReply st.replyCalls with
    | none =>
      rw [hr] at h
      have := ih _ _ _ h
      simp only at this
      refine ⟨this.1, this.2.1, this.2.2.1, this.2.2.2.1, this.2.2.2.2.1, ?_⟩
      rw [this.2.2.2.2.2]; omega
    | some reply =>
      rw [hr] at h
      simp only at h
      cases hc : cmds[j]? with
      | none => rw [hc] at h; cases h
      | some cmd =>
        rw [hc] at h
        simp only at h
        cases hrec : reconcile cmd reply with
        | error e => rw [hrec] at h; cases h
        | ok reports =>
          rw [hrec] at h
          have := ih _ _ _ h
          simp only at this
          refine ⟨this.1, this.2.1, this.2.2.1, this.2.2.2.1, this.2.2.2.2.1, ?_⟩
          rw [this.2.2.2.2.2]; omega

theorem composeLoop_invariant (env : Env) (w : Double) (P : Worker → Prop)
    (hslot : ∀ st cmds st1 cmds1, P st → composeSlot env w st cmds = .ok (st1, cmds1) → P st1) :
    ∀ (n : Nat) (st : Worker) (cmds : List BatchCommand) (st1 : Worker)
      (cmds1 : List BatchCommand), P st → composeLoop env w n st cmds = .ok (st1, cmds1) →
      P st1 := by
  intro n
  induction n with
  | zero =>
    intro st cmds st1 cmds1 hP h
    simp only [composeLoop, Except.ok.injEq, Prod.mk.injEq] at h
    rw [← h.1]; exact hP
  | succ n ih =>
    intro st cmds st1 cmds1 hP h
    unfold composeLoop at h
    cases hs : composeSlot env w st cmds with
    | error e => rw [hs] at h; cases h
    | ok res =>
      obtain ⟨st2, cmds2⟩ := res
      rw [hs] at h
      exact ih st2 cmds2 st1 cmds1 (hslot st cmds st2 cmds2 hP hs) h

theorem batchLoop_ok_inv (env : Env) (w : Double) (rpi depth : Int) (fuel : Nat) (i : Int)
    (st st1 : Worker) (h : batchLoop env w rpi depth (fuel + 1) i st = .ok st1) :
    (¬ i < rpi ∧ st1 = st) ∨
    (i < rpi ∧ 0 ≤ min depth (rpi - i) ∧ i + depth ≤ INT_MAX ∧
      ∃ st2 cmds st3,
        composeLoop env w (min depth (rpi - i)).toNat st [] = .ok (st2, cmds) ∧
        drainLoop env cmds (min depth (rpi - i)).toNat 0 st2 = .ok st3 ∧
        batchLoop env w rpi depth fuel (i + depth) st3 = .ok st1) := by
  unfold batchLoop at h
  by_cases h1 : i < rpi
  · right
    rw [if_pos h1] at h
    simp only at h
    by_cases h2 : min depth (rpi - i) < 0
    · rw [if_pos h2] at h; cases h
    · rw [if_neg h2] at h
      cases hc : composeLoop env w (min depth (rpi - i)).toNat st [] with
      | error e => rw [hc] at h; cases h
      | ok res =>
        obtain ⟨st2, cmds⟩ := res
        rw [hc] at h
        simp only at h
        cases hd : drainLoop env cmds (min depth (rpi - i)).toNat 0 st2 with
        | error e => rw [hd] at h; cases h
        | ok st3 =>
          rw [hd] at h
          simp only at h
          by_cases h3 : INT_MAX < i + depth
          · rw [if_pos h3] at h; cases h
          · rw [if_neg h3] at h
            exact ⟨h1, by omega, by omega, st2, cmds, st3, rfl, hd, h⟩
  · left
    rw [if_neg h1] at h
    cases h
    exact ⟨h1, rfl⟩

theorem batchLoop_invariant (env : Env) (w : Double) (rpi depth : Int) (P : Worker → Prop)
    (hslot : ∀ st cmds st1 cmds1, P st → composeSlot env w st cmds = .ok (st1, cmds1) → P st1)
    (hframe : ∀ a b : Worker, a.inMemoryData = b.inMemoryData → a.randCalls = b.randCalls →
      a.clockCalls = b.clockCalls → a.appended = b.appended → P a → P b) :
    ∀ (fuel : Nat) (i : Int) (st st1 : Worker), P st →
      batchLoop env w rpi depth fuel i st = .ok st1 → P st1 := by
  intro fuel
  induction fuel with
  | zero => intro i st st1 _ h; simp [batchLoop] at h
  | succ fuel ih =>
    intro i st st1 hP h
    rcases batchLoop_ok_inv env w rpi depth fuel i st st1 h with ⟨_, rfl⟩ |
      ⟨_, _, _, st2, cmds, st3, hc, hd, hb⟩
    · exact hP
    · have hP2 := composeLoop_invariant env w P hslot _ st [] st2 cmds hP hc
      have hf := drainLoop_frame env cmds _ _ st2 st3 hd
      exact ih _ st3 st1
        (hframe st2 st3 hf.1.symm hf.2.1.symm hf.2.2.1.symm hf.2.2.2.1.symm hP2) hb

theorem iterationLoop_invariant (env : Env) (w : Double) (rpi depth : Int) (fuel : Nat)
    (P : Worker → Prop)
    (hslot : ∀ st cmds st1 cmds1, P st → composeSlot env w st cmds = .ok (st1, cmds1) → P st1)
    (hframe : ∀ a b : Worker, a.inMemoryData = b.inMemoryData → a.randCalls = b.randCalls →
      a.clockCalls = b.clockCalls → a.appended = b.appended → P a → P b) :
    ∀ (n iter : Nat) (st st1 : Worker), P st →
      iterationLoop env w rpi depth fuel n iter st = .ok st1 → P st1 := by
  intro n
  induction n with
  | zero =>
    intro iter st st1 hP h
    simp only [iterationLoop, Except.ok.injEq] at h
    rw [← h]; exact hP
  | succ n ih =>
    intro iter st st1 hP h
    unfold iterationLoop at h
    cases hb : batchLoop env w rpi depth fuel 0
        { st with cout := st.cout ++ ["Iteration: " ++ toString (iter + 1)] } with
    | error e => simp [hb] at h
    | ok st2 =>
      simp only [hb] at h
      have hP1 := hframe st { st with cout := st.cout ++ ["Iteration: " ++ toString (iter + 1)] }
        rfl rfl rfl rfl hP
      exact ih _ st2 st1 (batchLoop_invariant env w rpi depth P hslot hframe fuel 0 _ st2 hP1 hb) h

theorem redisWorker_invariant (env : Env) (w : Double) (P : Worker → Prop)
    (hslot : ∀ st cmds st1 cmds1, P st → composeSlot env w st cmds = .ok (st1, cmds1) → P st1)
    (hframe : ∀ a b : Worker, a.inMemoryData = b.inMemoryData → a.randCalls = b.randCalls →
      a.clockCalls = b.clockCalls → a.appended = b.appended → P a → P b)
    (hinit : P Worker.init) (fuel : Nat) (total depth iterations : Int) (st : Worker)
    (h : redisWorker env fuel total depth w iterations = .ok st) : P st := by
  unfold redisWorker at h
  split_ifs at h
  exact iterationLoop_invariant env w _ depth fuel P hslot hframe _ 0 Worker.init st hinit h

/-! ## Classification of one reply -/

theorem reconcile_read_value (key expected payload : String)
    (hp : ∀ c ∈ payload.data, c ≠ Char.ofNat 0) :
    reconcile { isWrite := false, key := key, expectedValue := expected }
        { type := REDIS_REPLY_STRING, str := some payload } =
      if payload = expected then .ok []
      else .ok [.dataMismatch key expected payload REDIS_REPLY_STRING] := by
  simp only [reconcile, Bool.false_eq_true, if_false, if_true, cString_of_no_nul payload hp]
  by_cases h : payload = expected <;> simp [h]

theorem reconcile_read_nil (key expected : String) (str : Option String) :
    reconcile { isWrite := false, key := key, expectedValue := expected }
        { type := REDIS_REPLY_NIL, str := str } =
      .ok [.dataMissing key expected REDIS_REPLY_NIL] := by
  simp [reconcile, REDIS_REPLY_NIL, REDIS_REPLY_STRING]

theorem reconcile_read_other (key expected : String) (reply : redisReply)
    (h1 : reply.type ≠ REDIS_REPLY_STRING) (h2 : reply.type ≠ REDIS_REPLY_NIL) :
    ∃ response, reconcile { isWrite := false, key := key, expectedValue := expected } reply =
      .ok [.invalidGetReplyType key expected response reply.type] := by
  simp only [reconcile, Bool.false_eq_true, if_false, h1, h2]
  exact ⟨_, rfl⟩

theorem reconcile_write_status (key expected payload : String)
    (hp : ∀ c ∈ payload.data, c ≠ Char.ofNat 0) :
    reconcile { isWrite := true, key := key, expectedValue := expected }
        { type := REDIS_REPLY_STATUS, str := some payload } =
      if payload = "OK" then .ok []
      else .ok [.invalidSetReply key payload REDIS_REPLY_STATUS] := by
  simp only [reconcile, if_true, cString_of_no_nul payload hp]
  by_cases h : payload = "OK" <;> simp [h]

theorem reconcile_write_other (key expected : String) (reply : redisReply)
    (h : reply.type ≠ REDIS_REPLY_STATUS) :
    ∃ response, reconcile { isWrite := true, key := key, expectedValue := expected } reply =
      .ok [.invalidSetReplyType key response reply.type] := by
  simp only [reconcile, if_true, h, if_false]
  exact ⟨_, rfl⟩

set_option maxRecDepth 100000 in
/-- C1, failing input: a value reply whose payload is the expected value followed by a NUL
character and further bytes differs from the expected value, yet reconciling it against the
read reports nothing; a worker that writes a key and reads it back from a store returning
such a payload ends its run without a single report. -/
theorem reconcile_read_accepts_payload_with_embedded_nul :
    "value_key_5_7" ++ nul ++ "X" ≠ "value_key_5_7" ∧
    reconcile { isWrite := false, key := "key_5_7", expectedValue := "value_key_5_7" }
        { type := REDIS_REPLY_STRING, str := some ("value_key_5_7" ++ nul ++ "X") } = .ok [] ∧
    (redisWorker nulEnv 2 2 2 Double.zero 1).toOption.map
        (fun st => (st.appended, st.replyCalls, st.cerr)) =
      some ([["SET", "key_1700000000000_1", "value_key_1700000000000_1"],
             ["GET", "key_1700000000000_1"]], 2, []) := by
  decide

/-- C2, failing input: a status reply whose payload is `OK` followed by a NUL character and
further bytes is not the payload `OK`, yet reconciling it against a write reports nothing. -/
theorem reconcile_write_accepts_status_with_embedded_nul :
    "OK" ++ nul ++ "X" ≠ "OK" ∧
    reconcile { isWrite := true, key := "key_5_7", expectedValue := "" }
        { type := REDIS_REPLY_STATUS, str := some ("OK" ++ nul ++ "X") } = .ok [] := by
  decide

/-! ## Positional reconciliation -/

theorem zipWith_slotReports_length (env : Env) (cmds : List BatchCommand) (base : Nat) :
    (List.zipWith slotReports cmds (nextReplies env base cmds.length)).length = cmds.length := by
  simp [List.length_zipWith, nextReplies_length]

theorem zipWith_slotReports_getElem? (env : Env) (cmds : List BatchCommand) (base j : Nat)
    (cmd : BatchCommand) (hcmd : cmds[j]? = some cmd) :
    (List.zipWith slotReports cmds (nextReplies env base cmds.length))[j]? =
      some (slotReports cmd (env.redisGetReply (base + j))) := by
  have hj : j < cmds.length := by
    rcases Nat.lt_or_ge j cmds.length with h | h
    · exact h
    · rw [List.getElem?_eq_none h] at hcmd; cases hcmd
  rw [List.getElem?_zipWith, hcmd, nextReplies_getElem? env base cmds.length j hj]

/-- C3: in a batch of size `b` in which no receive fails, the list of queued commands has
exactly `b` entries, the drain loop performs exactly `b` receives, and what it reports is,
position by position, the reconciliation of the reply of the `j`-th receive against the
command queued `j`-th. -/
theorem drain_pairs_reply_with_command_at_same_index (env : Env) (writeRatio : Double)
    (b : Nat) (st st1 : Worker) (cmds : List BatchCommand)
    (hcompose : composeLoop env writeRatio b st [] = .ok (st1, cmds))
    (hrecv : ∀ j, j < b →
      ∃ reply, env.redisGetReply (st1.replyCalls + j) = some reply ∧ reply.hasPayload) :
    cmds.length = b ∧
    ∃ reports : List (List Report), reports.length = b ∧
      (∀ j, j < b → ∃ cmd reply reps, cmds[j]? = some cmd ∧
        env.redisGetReply (st1.replyCalls + j) = some reply ∧
        reports[j]? = some reps ∧ reconcile cmd reply = .ok reps) ∧
      drainLoop env cmds b 0 st1 = .ok
        { st1 with replyCalls := st1.replyCalls + b, cerr := st1.cerr ++ reports.flatten } := by
  obtain ⟨st2, cmds2, h2, hlen⟩ := composeLoop_total env writeRatio b st []
  rw [hcompose] at h2
  cases h2
  have hlen : cmds.length = b := by simpa using hlen
  subst hlen
  refine ⟨rfl, List.zipWith slotReports cmds (nextReplies env st1.replyCalls cmds.length),
    zipWith_slotReports_length env cmds _, ?_, ?_⟩
  · intro j hj
    obtain ⟨reply, hreply, hpay⟩ := hrecv j hj
    obtain ⟨reps, hreps⟩ := reconcile_ok_of_hasPayload cmds[j] reply hpay
    refine ⟨cmds[j], reply, reps, by simp [hj], hreply, ?_, hreps⟩
    rw [zipWith_slotReports_getElem? env cmds _ j cmds[j] (by simp [hj]), hreply]
    simp [slotReports, hreps]
  · have := drainLoop_spec env cmds cmds.length 0 st1 (by omega)
      (fun k reply hk hr => by
        obtain ⟨reply1, hreply1, hpay⟩ := hrecv k hk
        rw [hreply1] at hr
        cases hr
        exact hpay)
    simpa using this

/-- C5: when the receive for position `i` of a batch fails, the drain loop still performs
one receive per position of the batch; position `i` contributes exactly one transport-error
report and no classification, and every position whose receive succeeds contributes the
reconciliation of its reply against the command at its own index. -/
theorem drain_continues_after_transport_error (env : Env) (cmds : List BatchCommand)
    (st : Worker) (i : Nat) (hi : i < cmds.length)
    (hfail : env.redisGetReply (st.replyCalls + i) = none)
    (hpay : ∀ j reply, j < cmds.length →
      env.redisGetReply (st.replyCalls + j) = some reply → reply.hasPayload) :
    ∃ reports : List (List Report), reports.length = cmds.length ∧
      reports[i]? = some [Report.transportError] ∧
      (∀ j cmd reply, cmds[j]? = some cmd →
        env.redisGetReply (st.replyCalls + j) = some reply →
        ∃ reps, reports[j]? = some reps ∧ reconcile cmd reply = .ok reps) ∧
      (∀ j, j < cmds.length → env.redisGetReply (st.replyCalls + j) = none →
        reports[j]? = some [Report.transportError]) ∧
      drainLoop env cmds cmds.length 0 st = .ok
        { st with
            replyCalls := st.replyCalls + cmds.length,
            cerr := st.cerr ++ reports.flatten } := by
  have hnone : ∀ j, j < cmds.length → env.redisGetReply (st.replyCalls + j) = none →
      (List.zipWith slotReports cmds (nextReplies env st.replyCalls cmds.length))[j]? =
        some [Report.transportError] := by
    intro j hj hnone
    rw [zipWith_slotReports_getElem? env cmds _ j cmds[j] (by simp [hj]), hnone]
    rfl
  refine ⟨List.zipWith slotReports cmds (nextReplies env st.replyCalls cmds.length),
    zipWith_slotReports_length env cmds _, hnone i hi hfail, ?_, hnone, ?_⟩
  · intro j cmd reply hcmd hreply
    have hj : j < cmds.length := by
      rcases Nat.lt_or_ge j cmds.length with h | h
      · exact h
      · rw [List.getElem?_eq_none h] at hcmd; cases hcmd
    obtain ⟨reps, hreps⟩ := reconcile_ok_of_hasPayload cmd reply (hpay j reply hj hreply)
    refine ⟨reps, ?_, hreps⟩
    rw [zipWith_slotReports_getElem? env cmds _ j cmd hcmd, hreply]
    simp [slotReports, hreps]
  · have := drainLoop_spec env cmds cmds.length 0 st (by omega)
      (fun k reply hk hr => hpay k reply hk hr)
    simpa using this

/-! ## Witnesses of the drain loop -/

set_option maxRecDepth 100000 in
/-- Witness of C3: the batch of two writes composed in `tickingEnv` with write ratio 1.0 has
two entries and is drained by two receives, each reply reconciled against the command at its
own position. -/
theorem drain_pairs_reply_with_command_at_same_index_witness :
    tickingBatch.length = 2 ∧
    ∃ reports : List (List Report), reports.length = 2 ∧
      (∀ j, j < 2 → ∃ cmd reply reps, tickingBatch[j]? = some cmd ∧
        tickingEnv.redisGetReply (tickingState.replyCalls + j) = some reply ∧
        reports[j]? = some reps ∧ reconcile cmd reply = .ok reps) ∧
      drainLoop tickingEnv tickingBatch 2 0 tickingState = .ok
        { tickingState with
            replyCalls := tickingState.replyCalls + 2,
            cerr := tickingState.cerr ++ reports.flatten } :=
  drain_pairs_reply_with_command_at_same_index tickingEnv Double.one 2 Worker.init
    tickingState tickingBatch (by decide) (fun _ _ => ⟨_, rfl, by decide⟩)

set_option maxRecDepth 100000 in
/-- Witness of C5: in `lossyEnv` the batch Write, Read, Read, Read
gets the replies `OK`, "no value", a failed receive and the expected value; the drain loop
performs four receives and reports exactly one missing value, for position 1, and one
transport error, for position 2. -/
theorem drain_continues_after_transport_error_witness :
    (composeLoop lossyEnv Double.zero 4 Worker.init [] = .ok (lossyState, lossyBatch) ∧
      lossyEnv.redisGetReply (lossyState.replyCalls + 2) = none) ∧
    (∃ reports : List (List Report), reports.length = lossyBatch.length ∧
      reports[2]? = some [Report.transportError] ∧
      drainLoop lossyEnv lossyBatch lossyBatch.length 0 lossyState = .ok
        { lossyState with
            replyCalls := lossyState.replyCalls + lossyBatch.length,
            cerr := lossyState.cerr ++ reports.flatten }) ∧
    drainLoop lossyEnv lossyBatch 4 0 lossyState = .ok
      { lossyState with
          replyCalls := 4,
          cerr := [.dataMissing "key_1700000000000_1" "value_key_1700000000000_1"
                      REDIS_REPLY_NIL,
                   .transportError] } := by
  refine ⟨⟨by decide, by decide⟩, ?_, by decide⟩
  obtain ⟨reports, hlen, hi, _, _, hdrain⟩ :=
    drain_continues_after_transport_error lossyEnv lossyBatch lossyState 2
      (by decide) (by decide) (fun j reply hj hr => by
        have hj4 : j < 4 := hj
        interval_cases j <;> simp [lossyEnv, lossyState] at hr <;> subst hr <;> decide)
  exact ⟨reports, hlen, hi, hdrain⟩

/-! ## Composition: read only what was written -/

/-- C4: whatever the write ratio, the draws and the state, a round of the composing loop
never faults; when the in-memory store is empty it composes a write; when it composes a read
the store is non-empty, the chosen index (random value modulo the store's size) is within
the store, and the command carries the entry at that index. Hence no batch faults. -/
theorem read_composed_only_when_oracle_nonempty (env : Env) (writeRatio : Double)
    (st : Worker) (cmds : List BatchCommand) :
    (∃ st1 cmd, composeSlot env writeRatio st cmds = .ok (st1, cmds ++ [cmd]) ∧
      (st.inMemoryData = [] → cmd.isWrite = true) ∧
      (cmd.isWrite = false → st.inMemoryData ≠ [] ∧
        env.rand (st.randCalls + 1) % st.inMemoryData.length < st.inMemoryData.length ∧
        st.inMemoryData[env.rand (st.randCalls + 1) % st.inMemoryData.length]? =
          some (cmd.key, cmd.expectedValue))) ∧
    (∀ n, ∃ st1 cmds1, composeLoop env writeRatio n st cmds = .ok (st1, cmds1)) := by
  refine ⟨?_, fun n => ?_⟩
  · cases h : slotIsWrite env writeRatio st with
    | true =>
      refine ⟨_, _, composeSlot_write env writeRatio st cmds h, fun _ => rfl, fun hw => ?_⟩
      cases hw
    | false =>
      obtain ⟨entry, hentry, hidx, hc⟩ := composeSlot_read env writeRatio st cmds h
      refine ⟨_, _, hc, fun hnil => ?_, fun _ => ⟨?_, hidx, hentry⟩⟩
      · rw [hnil] at hidx; simp at hidx
      · intro hnil; rw [hnil] at hidx; simp at hidx
  · obtain ⟨st1, cmds1, h, _⟩ := composeLoop_total env writeRatio n st cmds
    exact ⟨st1, cmds1, h⟩

/-! ## The recorded value is the submitted value -/

theorem composeSlot_oracleDerived (env : Env) (w : Double) (st : Worker)
    (cmds : List BatchCommand) (st1 : Worker) (cmds1 : List BatchCommand)
    (hinv : OracleDerived st) (h : composeSlot env w st cmds = .ok (st1, cmds1)) :
    OracleDerived st1 := by
  cases hw : slotIsWrite env w st with
  | true =>
    rw [composeSlot_write env w st cmds hw] at h
    simp only [Except.ok.injEq, Prod.mk.injEq] at h
    rw [← h.1]
    intro entry hentry
    simp only [List.mem_append, List.mem_singleton] at hentry
    rcases hentry with hentry | hentry
    · exact hinv entry hentry
    · rw [hentry]
  | false =>
    obtain ⟨entry, _, _, hc⟩ := composeSlot_read env w st cmds hw
    rw [hc] at h
    simp only [Except.ok.injEq, Prod.mk.injEq] at h
    rw [← h.1]
    exact hinv

/-- C7: the empty store satisfies "every entry holds the value derived from its key";
a round of the composing loop started in a state that satisfies it ends in one that does,
a write recording and submitting `"value_" ++ key` for its key, a read carrying a key and
an expected value that are an entry of the store at that moment, so that
`expectedValue = "value_" ++ key`; and every state a worker ends in satisfies it. -/
theorem oracle_value_is_submitted_value :
    OracleDerived Worker.init ∧
    (∀ (env : Env) (writeRatio : Double) (st : Worker) (cmds : List BatchCommand),
      OracleDerived st →
      ∃ st1 cmd, composeSlot env writeRatio st cmds = .ok (st1, cmds ++ [cmd]) ∧
        OracleDerived st1 ∧
        (cmd.isWrite = true →
          st1.inMemoryData = st.inMemoryData ++ [(cmd.key, "value_" ++ cmd.key)] ∧
          st1.appended = st.appended ++ [["SET", cmd.key, "value_" ++ cmd.key]]) ∧
        (cmd.isWrite = false →
          (cmd.key, cmd.expectedValue) ∈ st.inMemoryData ∧
          cmd.expectedValue = "value_" ++ cmd.key ∧
          st1.inMemoryData = st.inMemoryData)) ∧
    (∀ (env : Env) (fuel : Nat) (totalRequests pipelineDepth : Int) (writeRatio : Double)
      (iterations : Int) (st : Worker),
      redisWorker env fuel totalRequests pipelineDepth writeRatio iterations = .ok st →
      OracleDerived st) := by
  have hinit : OracleDerived Worker.init := by
    intro entry hentry
    simp [Worker.init] at hentry
  refine ⟨hinit, ?_, ?_⟩
  · intro env w st cmds hinv
    cases hw : slotIsWrite env w st with
    | true =>
      have hc := composeSlot_write env w st cmds hw
      refine ⟨_, _, hc, composeSlot_oracleDerived env w st cmds _ _ hinv hc,
        fun _ => ⟨rfl, rfl⟩, fun h => ?_⟩
      cases h
    | false =>
      obtain ⟨entry, hentry, _, hc⟩ := composeSlot_read env w st cmds hw
      have hmem : entry ∈ st.inMemoryData := List.getElem?_mem hentry
      refine ⟨_, _, hc, composeSlot_oracleDerived env w st cmds _ _ hinv hc,
        fun h => ?_, fun _ => ⟨hmem, hinv entry hmem, rfl⟩⟩
      cases h
  · intro env fuel total depth w iterations st h
    exact redisWorker_invariant env w OracleDerived
      (fun st cmds st1 cmds1 hP hs => composeSlot_oracleDerived env w st cmds st1 cmds1 hP hs)
      (fun a b hab _ _ _ hP => by
        intro entry hentry
        rw [← hab] at hentry
        exact hP entry hentry)
      hinit fuel total depth iterations st h

/-! ## Keys of the in-memory store -/

theorem keysGenerated_init (env : Env) : KeysGenerated env Worker.init :=
  ⟨[], rfl, rfl, List.Pairwise.nil, fun _ h => by simp at h, fun c entry i h _ => by
    simp [Worker.init] at h⟩

theorem keysGenerated_frame (env : Env) (a b : Worker)
    (h1 : a.inMemoryData = b.inMemoryData) (h2 : a.randCalls = b.randCalls)
    (h3 : a.clockCalls = b.clockCalls) (h : KeysGenerated env a) : KeysGenerated env b := by
  obtain ⟨idx, hlen, hclock, hpair, hlt, hkey⟩ := h
  exact ⟨idx, by rw [← h1]; exact hlen, by rw [← h1, ← h3]; exact hclock, hpair,
    fun i hi => by rw [← h2]; exact hlt i hi, fun c entry i hc hi => hkey c entry i (by
      rw [h1]; exact hc) hi⟩

theorem composeSlot_keysGenerated (env : Env) (w : Double) (st : Worker)
    (cmds : List BatchCommand) (st1 : Worker) (cmds1 : List BatchCommand)
    (hinv : KeysGenerated env st) (h : composeSlot env w st cmds = .ok (st1, cmds1)) :
    KeysGenerated env st1 := by
  obtain ⟨idx, hlen, hclock, hpair, hlt, hkey⟩ := hinv
  cases hw : slotIsWrite env w st with
  | true =>
    rw [composeSlot_write env w st cmds hw] at h
    simp only [Except.ok.injEq, Prod.mk.injEq] at h
    rw [← h.1]
    refine ⟨idx ++ [st.randCalls + 1], by simp [hlen], by simp [hclock], ?_, ?_, ?_⟩
    · rw [List.pairwise_append]
      refine ⟨hpair, List.pairwise_singleton _ _, fun a ha b hb => ?_⟩
      simp only [List.mem_singleton] at hb
      have := hlt a ha
      omega
    · intro i hi
      simp only [List.mem_append, List.mem_singleton] at hi
      rcases hi with hi | hi
      · have := hlt i hi
        show i < st.randCalls + 2
        omega
      · show i < st.randCalls + 2
        omega
    · intro c entry i hc hi
      simp only at hc
      rcases Nat.lt_or_ge c st.inMemoryData.length with hlt1 | hge
      · rw [List.getElem?_append_left hlt1] at hc
        rw [List.getElem?_append_left (by rw [hlen]; exact hlt1)] at hi
        exact hkey c entry i hc hi
      · rw [List.getElem?_append_right hge] at hc
        rw [List.getElem?_append_right (by rw [hlen]; exact hge)] at hi
        have hc0 : c - st.inMemoryData.length = 0 := by
          rcases Nat.eq_zero_or_pos (c - st.inMemoryData.length) with h0 | hpos
          · exact h0
          · rw [List.getElem?_eq_none (by simp only [List.length_singleton]; omega)] at hc
            cases hc
        rw [hc0] at hc
        rw [hlen, hc0] at hi
        simp only [List.getElem?_cons_zero, Option.some.injEq] at hc hi
        have hceq : c = st.clockCalls := by omega
        rw [← hc, ← hi, hceq]
        rfl
  | false =>
    obtain ⟨entry, _, _, hc⟩ := composeSlot_read env w st cmds hw
    rw [hc] at h
    simp only [Except.ok.injEq, Prod.mk.injEq] at h
    rw [← h.1]
    exact ⟨idx, hlen, hclock, hpair, fun i hi => by
      have := hlt i hi
      show i < st.randCalls + 2
      omega, hkey⟩

theorem redisWorker_keysGenerated (env : Env) (fuel : Nat) (total depth : Int) (w : Double)
    (iterations : Int) (st : Worker)
    (h : redisWorker env fuel total depth w iterations = .ok st) : KeysGenerated env st :=
  redisWorker_invariant env w (KeysGenerated env)
    (fun st cmds st1 cmds1 hP hs => composeSlot_keysGenerated env w st cmds st1 cmds1 hP hs)
    (fun a b h1 h2 h3 _ hP => keysGenerated_frame env a b h1 h2 h3 hP)
    (keysGenerated_init env) fuel total depth iterations st h

/-- C6, as amended: in every run of a worker, two entries of the in-memory store have equal
keys only if their two key generations saw the same clock reading and the same random
value (the `c`-th entry is generated from the `c`-th reading); so the recorded keys are
pairwise distinct whenever the clock readings of the run are. -/
theorem oracle_keys_equal_only_on_repeated_reading_and_random (env : Env) (fuel : Nat)
    (totalRequests pipelineDepth : Int) (writeRatio : Double) (iterations : Int) (st : Worker)
    (hrun : redisWorker env fuel totalRequests pipelineDepth writeRatio iterations = .ok st) :
    (∀ c1 c2 e1 e2, c1 < c2 → st.inMemoryData[c1]? = some e1 →
      st.inMemoryData[c2]? = some e2 → e1.1 = e2.1 →
      env.now_ms c1 = env.now_ms c2 ∧
      ∃ i1 i2, i1 < i2 ∧ env.rand i1 = env.rand i2 ∧
        e1.1 = keyText (env.now_ms c1) (env.rand i1) ∧
        e2.1 = keyText (env.now_ms c2) (env.rand i2)) ∧
    (Function.Injective env.now_ms → st.keys.Nodup) := by
  obtain ⟨idx, hlen, hclock, hpair, hlt, hkey⟩ :=
    redisWorker_keysGenerated env fuel totalRequests pipelineDepth writeRatio iterations st hrun
  have hmain : ∀ c1 c2 e1 e2, c1 < c2 → st.inMemoryData[c1]? = some e1 →
      st.inMemoryData[c2]? = some e2 → e1.1 = e2.1 →
      env.now_ms c1 = env.now_ms c2 ∧
      ∃ i1 i2, i1 < i2 ∧ env.rand i1 = env.rand i2 ∧
        e1.1 = keyText (env.now_ms c1) (env.rand i1) ∧
        e2.1 = keyText (env.now_ms c2) (env.rand i2) := by
    intro c1 c2 e1 e2 hc he1 he2 heq
    have hc2 : c2 < st.inMemoryData.length := by
      rcases Nat.lt_or_ge c2 st.inMemoryData.length with h | h
      · exact h
      · rw [List.getElem?_eq_none h] at he2; cases he2
    have hi1 : idx[c1]? = some idx[c1] := List.getElem?_eq_getElem (by omega)
    have hi2 : idx[c2]? = some idx[c2] := List.getElem?_eq_getElem (by omega)
    have hk1 := hkey c1 e1 _ he1 hi1
    have hk2 := hkey c2 e2 _ he2 hi2
    have hinj := keyText_injective _ _ _ _ (hk1.symm.trans (heq.trans hk2))
    refine ⟨hinj.1, idx[c1], idx[c2], ?_, hinj.2, hk1, hk2⟩
    exact List.pairwise_iff_getElem.1 hpair c1 c2 (by omega) (by omega) hc
  refine ⟨hmain, fun hinj => ?_⟩
  rw [List.nodup_iff_getElem?_ne_getElem?]
  intro i j hij hj heq
  have hj1 : j < st.inMemoryData.length := by simpa [Worker.keys] using hj
  have hi1 : i < st.inMemoryData.length := by omega
  simp only [Worker.keys, List.getElem?_map, List.getElem?_eq_getElem hi1,
    List.getElem?_eq_getElem hj1, Option.map_some', Option.some.injEq] at heq
  have := (hmain i j _ _ hij (List.getElem?_eq_getElem hi1) (List.getElem?_eq_getElem hj1) heq).1
  have := hinj this
  omega

set_option maxRecDepth 100000 in
/-- Witness of C6 as amended: a run of four commands against a ticking clock records
pairwise distinct keys. -/
theorem oracle_keys_equal_only_on_repeated_reading_and_random_witness :
    ∃ st, redisWorker tickingEnv 3 4 2 Double.one 1 = .ok st ∧ st.keys.Nodup := by
  have hclock : Function.Injective tickingEnv.now_ms := by
    intro a b h
    simp only [tickingEnv] at h
    omega
  cases h : redisWorker tickingEnv 3 4 2 Double.one 1 with
  | error e =>
    have hok : (redisWorker tickingEnv 3 4 2 Double.one 1).toBool = true := by decide
    rw [h] at hok
    cases hok
  | ok st =>
    exact ⟨st, rfl, (oracle_keys_equal_only_on_repeated_reading_and_random tickingEnv 3 4 2
      Double.one 1 st h).2 hclock⟩

set_option maxRecDepth 100000 in
/-- Counterexample to C6 as stated: two writes that see the same clock reading and the same
random value record the same key twice. -/
theorem oracle_keys_not_unique_counterexample :
    (redisWorker repeatingEnv 2 2 2 Double.one 1).toOption.map Worker.keys =
      some ["key_5_7", "key_5_7"] ∧
    ¬ (["key_5_7", "key_5_7"] : List String).Nodup := by
  decide

/-! ## Write ratio 1.0 -/

set_option maxRecDepth 100000 in
/-- C8, failing input: write ratio 1.0, batch size 1, one iteration, three commands, and a
store that acknowledges everything with `OK`; the draw of the second command is `RAND_MAX`,
so its fraction is `1.0`, which is not below the ratio: the second command is a read, the
store ends with two entries, and the read's `OK` reply is reported as an anomaly. -/
theorem write_ratio_one_composes_read_when_draw_is_rand_max :
    Double.lt (Double.ofRatio maxDrawEnv.RAND_MAX maxDrawEnv.RAND_MAX) Double.one = false ∧
    redisWorker maxDrawEnv 4 3 1 Double.one 1 = .ok
      { inMemoryData := [("key_1700000000000_1", "value_key_1700000000000_1"),
          ("key_1700000000001_5", "value_key_1700000000001_5")],
        randCalls := 6, clockCalls := 2, replyCalls := 3,
        appended := [["SET", "key_1700000000000_1", "value_key_1700000000000_1"],
          ["GET", "key_1700000000000_1"],
          ["SET", "key_1700000000001_5", "value_key_1700000000001_5"]],
        cerr := [.invalidGetReplyType "key_1700000000000_1" "value_key_1700000000000_1" "OK"
          REDIS_REPLY_STATUS],
        cout := ["Iteration: 1"] } := by
  decide

/-! ## Write ratio 1.0, draws below `RAND_MAX` -/

theorem Double.scaleUp_result (num den : Nat) :
    ∀ (fuel k : Nat), den * 2 ^ 52 ≤ num * 2 ^ Double.scaleUp num den fuel k ∨
      Double.scaleUp num den fuel k = k + fuel := by
  intro fuel
  induction fuel with
  | zero => intro k; right; rfl
  | succ fuel ih =>
    intro k
    unfold Double.scaleUp
    by_cases h : den * 2 ^ 52 ≤ num * 2 ^ k
    · rw [if_pos h]; left; exact h
    · rw [if_neg h]
      rcases ih (k + 1) with h1 | h1
      · left; exact h1
      · right; rw [h1]; omega

theorem Double.roundNearestEven_le (num den : Nat) :
    Double.roundNearestEven num den ≤ num / den + 1 := by
  unfold Double.roundNearestEven
  split_ifs <;> omega

theorem Double.ofRatio_lt_one (num den : Nat) (h : num < den) (hden : den < 2 ^ 53) :
    Double.lt (Double.ofRatio num den) Double.one = true := by
  have hden0 : den ≠ 0 := by omega
  unfold Double.ofRatio
  rw [if_neg hden0]
  by_cases hnum : num = 0
  · rw [if_pos hnum]; decide
  · rw [if_neg hnum]
    have hlt : num < den * 2 ^ 53 := by
      calc num < den := h
        _ = den * 1 := (Nat.mul_one den).symm
        _ ≤ den * 2 ^ 53 := Nat.mul_le_mul_left den (Nat.one_le_two_pow)
    rw [if_pos hlt]
    generalize hk : Double.scaleUp num den (den + 53) 0 = k
    have hk53 : 53 ≤ k := by
      rcases Double.scaleUp_result num den (den + 53) 0 with h1 | h1
      · rw [hk] at h1
        by_contra hcon
        have hk52 : k ≤ 52 := by omega
        have h2 : num * 2 ^ k ≤ num * 2 ^ 52 :=
          Nat.mul_le_mul_left num (Nat.pow_le_pow_right (by decide) hk52)
        have h3 : num * 2 ^ 52 < den * 2 ^ 52 :=
          Nat.mul_lt_mul_of_pos_right h (by positivity)
        omega
      · rw [hk] at h1; omega
    have hpow : 2 ^ 53 ≤ 2 ^ k := Nat.pow_le_pow_right (by decide) hk53
    have hden2 : den < 2 ^ k := by omega
    -- the rounded significand stays below `2 ^ k`
    have hmant : Double.roundNearestEven (num * 2 ^ k) den < 2 ^ k := by
      have hq : num * 2 ^ k / den < 2 ^ k := by
        rw [Nat.div_lt_iff_lt_mul (by omega), Nat.mul_comm (2 ^ k) den]
        exact Nat.mul_lt_mul_of_pos_right h (Nat.two_pow_pos k)
      by_cases hq1 : num * 2 ^ k / den + 1 < 2 ^ k
      · exact lt_of_le_of_lt (Double.roundNearestEven_le _ _) hq1
      · have hqe : num * 2 ^ k / den = 2 ^ k - 1 := by omega
        have hdm := Nat.div_add_mod (num * 2 ^ k) den
        have hle : num * 2 ^ k + 2 ^ k ≤ den * 2 ^ k := by
          have : (num + 1) * 2 ^ k ≤ den * 2 ^ k := Nat.mul_le_mul_right _ h
          rw [Nat.add_mul, Nat.one_mul] at this
          exact this
        rw [hqe] at hdm
        have hmul : den * (2 ^ k - 1) = den * 2 ^ k - den := by
          rw [Nat.mul_sub, Nat.mul_one]
        have hge : den ≤ den * 2 ^ k := Nat.le_mul_of_pos_right den (by positivity)
        have hrem : 2 * (num * 2 ^ k % den) < den := by omega
        unfold Double.roundNearestEven
        rw [if_pos hrem]
        exact hq
    simp only [Double.lt, Double.one, one_mul, decide_eq_true_eq]
    have hmin : min (-(k : Int)) 0 = -(k : Int) := by omega
    rw [hmin]
    have e1 : (-(k : Int) - -(k : Int)).toNat = 0 := by omega
    have e2 : ((0 : Int) - -(k : Int)).toNat = k := by omega
    rw [e1, e2]
    simp only [pow_zero, mul_one]
    exact_mod_cast hmant

/-- With write ratio 1.0, a round of the composing loop whose draw is
below `RAND_MAX` (itself below `2^53`) composes a write and adds one entry to the in-memory
store. -/
theorem write_ratio_one_writes_when_draw_below_rand_max (env : Env) (st : Worker)
    (cmds : List BatchCommand) (hmax : env.RAND_MAX < 2 ^ 53)
    (hdraw : env.rand st.randCalls < env.RAND_MAX) :
    ∃ st1 cmd, composeSlot env Double.one st cmds = .ok (st1, cmds ++ [cmd]) ∧
      cmd.isWrite = true ∧ st1.inMemoryData.length = st.inMemoryData.length + 1 := by
  have hw : slotIsWrite env Double.one st = true := by
    simp [slotIsWrite, Double.ofRatio_lt_one _ _ hdraw hmax]
  exact ⟨_, _, composeSlot_write env Double.one st cmds hw, rfl, by simp⟩

set_option maxRecDepth 100000 in
/-- The scenario with draws below `RAND_MAX`: write ratio 1.0, batch size 1, one
iteration, three commands give three writes, a store of three entries and no report when
every reply is the status `OK`. -/
theorem write_ratio_one_scenario :
    (redisWorker tickingEnv 4 3 1 Double.one 1).toOption.map
        (fun st => (st.appended.map List.head?, st.inMemoryData.length, st.cerr)) =
      some ([some "SET", some "SET", some "SET"], 3, []) := by
  decide

/-! ## Write ratio 0.0 -/

theorem Double.ofRatio_not_lt_zero (num den : Nat) :
    Double.lt (Double.ofRatio num den) Double.zero = false := by
  have hfin : ∀ (m : Nat) (e : Int),
      Double.lt (Double.finite (m : Int) e) Double.zero = false := by
    intro m e
    simp only [Double.lt, Double.zero, zero_mul, decide_eq_false_iff_not, not_lt]
    positivity
  unfold Double.ofRatio
  split_ifs
  · rfl
  · rfl
  · exact hfin 0 0
  · exact hfin _ _
  · exact hfin _ _

theorem slotIsWrite_zero (env : Env) (st : Worker) :
    slotIsWrite env Double.zero st = st.inMemoryData.isEmpty := by
  simp [slotIsWrite, Double.ofRatio_not_lt_zero]

theorem composeLoop_zero_reads (env : Env) (k v : String) (hk : cString k = k) :
    ∀ (n : Nat) (st : Worker) (cmds : List BatchCommand), st.inMemoryData = [(k, v)] →
      composeLoop env Double.zero n st cmds = .ok
        ({ st with
            randCalls := st.randCalls + 2 * n,
            appended := st.appended ++ List.replicate n ["GET", k] },
          cmds ++ List.replicate n { isWrite := false, key := k, expectedValue := v }) := by
  intro n
  induction n with
  | zero => intro st cmds _; simp [composeLoop]
  | succ n ih =>
    intro st cmds hst
    have hw : slotIsWrite env Double.zero st = false := by
      rw [slotIsWrite_zero, hst]; rfl
    obtain ⟨entry, hentry, hidx, hc⟩ := composeSlot_read env Double.zero st cmds hw
    have hentry1 : entry = (k, v) := by
      rw [hst] at hentry hidx
      simp only [List.length_singleton, Nat.lt_one_iff] at hidx
      rw [hidx] at hentry
      simpa using hentry.symm
    subst hentry1
    simp only [composeLoop, hc]
    refine (ih _ _ (by exact hst)).trans ?_
    simp only [hk, List.replicate_succ, List.append_assoc, List.singleton_append,
      Except.ok.injEq, Prod.mk.injEq, and_true]
    congr 1
    omega

/-- C9: with write ratio 0.0 and an empty in-memory store, a batch of `b ≥ 1` commands is
one write of a fresh key followed by `b - 1` reads of that key, each expecting the value
recorded for it; the store holds exactly that one entry afterwards. -/
theorem zero_ratio_batch_is_write_then_reads (env : Env) (b : Nat) (st : Worker)
    (hb : 1 ≤ b) (hempty : st.inMemoryData = []) :
    composeLoop env Double.zero b st [] = .ok
      ({ st with
          inMemoryData := [(slotKey env st, "value_" ++ slotKey env st)],
          randCalls := st.randCalls + 2 * b,
          clockCalls := st.clockCalls + 1,
          appended := st.appended ++
            ["SET", slotKey env st, "value_" ++ slotKey env st] ::
              List.replicate (b - 1) ["GET", slotKey env st] },
        { isWrite := true, key := slotKey env st, expectedValue := "" } ::
          List.replicate (b - 1)
            { isWrite := false, key := slotKey env st,
              expectedValue := "value_" ++ slotKey env st }) := by
  obtain ⟨n, rfl⟩ : ∃ n, b = n + 1 := ⟨b - 1, by omega⟩
  have hw : slotIsWrite env Double.zero st = true := by
    rw [slotIsWrite_zero, hempty]; rfl
  simp only [composeLoop, composeSlot_write env Double.zero st [] hw]
  refine (composeLoop_zero_reads env (slotKey env st) ("value_" ++ slotKey env st)
    (cString_keyText _ _) n _ _ (by simp [hempty])).trans ?_
  simp only [hempty, List.nil_append, List.append_assoc, List.singleton_append,
    Nat.add_sub_cancel, Except.ok.injEq, Prod.mk.injEq, and_true]
  congr 1
  omega

/-- Witness of C9: write ratio 0.0, empty store, batch size 4 gives Write, Read, Read, Read
of the one key `key_1700000000000_1`. -/
theorem zero_ratio_batch_is_write_then_reads_witness :
    (1 ≤ 4 ∧ Worker.init.inMemoryData = []) ∧
    (composeLoop tickingEnv Double.zero 4 Worker.init []).toOption.map Prod.snd = some
      [{ isWrite := true, key := "key_1700000000000_1", expectedValue := "" },
       { isWrite := false, key := "key_1700000000000_1",
         expectedValue := "value_key_1700000000000_1" },
       { isWrite := false, key := "key_1700000000000_1",
         expectedValue := "value_key_1700000000000_1" },
       { isWrite := false, key := "key_1700000000000_1",
         expectedValue := "value_key_1700000000000_1" }] := by
  refine ⟨⟨by decide, rfl⟩, ?_⟩
  rw [zero_ratio_batch_is_write_then_reads tickingEnv 4 Worker.init (by decide) rfl]
  decide

/-! ## The batching loop -/

theorem batchLoop_ok_exit (env : Env) (w : Double) (rpi depth : Int) :
    ∀ (fuel : Nat) (i : Int) (st st1 : Worker), i < rpi →
      batchLoop env w rpi depth fuel i st = .ok st1 →
      ∃ k : Nat, rpi ≤ i + (k + 1) * depth ∧ i + (k + 1) * depth ≤ INT_MAX := by
  intro fuel
  induction fuel with
  | zero => intro i st st1 _ h; simp [batchLoop] at h
  | succ fuel ih =>
    intro i st st1 hi h
    rcases batchLoop_ok_inv env w rpi depth fuel i st st1 h with ⟨hn, _⟩ |
      ⟨_, _, hmax, st2, cmds, st3, _, _, hb⟩
    · exact absurd hi hn
    · by_cases hnext : i + depth < rpi
      · obtain ⟨k, hk1, hk2⟩ := ih (i + depth) st3 st1 hnext hb
        refine ⟨k + 1, ?_, ?_⟩
        · push_cast; linarith
        · push_cast; linarith
      · exact ⟨0, by push_cast; linarith, by push_cast; linarith⟩

theorem composeSlot_counts (env : Env) (w : Double) (st : Worker) (cmds : List BatchCommand) :
    ∃ st1 cmd, composeSlot env w st cmds = .ok (st1, cmds ++ [cmd]) ∧
      st1.appended.length = st.appended.length + 1 ∧
      st1.replyCalls = st.replyCalls ∧ st1.cerr = st.cerr ∧ st1.cout = st.cout := by
  cases hw : slotIsWrite env w st with
  | true => exact ⟨_, _, composeSlot_write env w st cmds hw, by simp, rfl, rfl, rfl⟩
  | false =>
    obtain ⟨entry, _, _, hc⟩ := composeSlot_read env w st cmds hw
    exact ⟨_, _, hc, by simp, rfl, rfl, rfl⟩

theorem composeLoop_counts (env : Env) (w : Double) :
    ∀ (n : Nat) (st : Worker) (cmds : List BatchCommand),
      ∃ st1 cmds1, composeLoop env w n st cmds = .ok (st1, cmds1) ∧
        cmds1.length = cmds.length + n ∧
        st1.appended.length = st.appended.length + n ∧
        st1.replyCalls = st.replyCalls ∧ st1.cerr = st.cerr ∧ st1.cout = st.cout := by
  intro n
  induction n with
  | zero => intro st cmds; exact ⟨st, cmds, rfl, rfl, rfl, rfl, rfl, rfl⟩
  | succ n ih =>
    intro st cmds
    obtain ⟨st1, cmd, hc, ha1, hr1, he1, ho1⟩ := composeSlot_counts env w st cmds
    obtain ⟨st2, cmds2, h2, hl, ha, hr, he, ho⟩ := ih st1 (cmds ++ [cmd])
    refine ⟨st2, cmds2, by simp only [composeLoop, hc, h2], ?_, ?_, by rw [hr, hr1],
      by rw [he, he1], by rw [ho, ho1]⟩
    · rw [hl]; simp; omega
    · rw [ha, ha1]; omega

theorem batch_round_ok (env : Env) (w : Double) (n : Nat) (st : Worker)
    (hpay : ∀ k reply, env.redisGetReply k = some reply → reply.hasPayload) :
    ∃ st1 cmds st2, composeLoop env w n st [] = .ok (st1, cmds) ∧ cmds.length = n ∧
      drainLoop env cmds n 0 st1 = .ok st2 ∧
      st2.appended.length = st.appended.length + n ∧
      st2.replyCalls = st.replyCalls + n ∧ st2.cout = st.cout := by
  obtain ⟨st1, cmds, hc, hl, ha, hr, _, ho⟩ := composeLoop_counts env w n st []
  have hl1 : cmds.length = n := by simpa using hl
  have hd := drainLoop_spec env cmds n 0 st1 (by omega) (fun k reply _ h => hpay _ reply h)
  exact ⟨st1, cmds, _, hc, hl1, hd, by simpa using ha, by simp [hr], by simpa using ho⟩

theorem batchLoop_completes (env : Env) (w : Double) (rpi depth : Int) (hd : 1 ≤ depth)
    (hno : rpi + depth ≤ INT_MAX + 1)
    (hpay : ∀ k reply, env.redisGetReply k = some reply → reply.hasPayload) :
    ∀ (fuel : Nat) (i : Int) (st : Worker), (rpi - i).toNat < fuel →
      ∃ st1, batchLoop env w rpi depth fuel i st = .ok st1 ∧
        st1.appended.length = st.appended.length + (rpi - i).toNat ∧
        st1.replyCalls = st.replyCalls + (rpi - i).toNat ∧ st1.cout = st.cout := by
  intro fuel
  induction fuel with
  | zero => intro i st h; omega
  | succ fuel ih =>
    intro i st hfuel
    by_cases hi : i < rpi
    · have hb0 : ¬ min depth (rpi - i) < 0 := by omega
      have hmax : ¬ INT_MAX < i + depth := by omega
      obtain ⟨st1, cmds, st2, hc, _, hdr, ha, hr, ho⟩ :=
        batch_round_ok env w (min depth (rpi - i)).toNat st hpay
      obtain ⟨st3, h3, ha3, hr3, ho3⟩ := ih (i + depth) st2 (by omega)
      refine ⟨st3, ?_, ?_, ?_, by rw [ho3, ho]⟩
      · unfold batchLoop
        rw [if_pos hi]
        simp only [hb0, if_false, hc, hdr, hmax]
        exact h3
      · rw [ha3, ha]; omega
      · rw [hr3, hr]; omega
    · refine ⟨st, ?_, ?_, ?_, rfl⟩
      · unfold batchLoop
        rw [if_neg hi]
      · have : (rpi - i).toNat = 0 := by omega
        rw [this]; rfl
      · have : (rpi - i).toNat = 0 := by omega
        rw [this]; rfl

theorem iterationLoop_completes (env : Env) (w : Double) (rpi depth : Int) (hd : 1 ≤ depth)
    (hno : rpi + depth ≤ INT_MAX + 1)
    (hpay : ∀ k reply, env.redisGetReply k = some reply → reply.hasPayload)
    (fuel : Nat) (hfuel : rpi.toNat < fuel) :
    ∀ (n iter : Nat) (st : Worker),
      ∃ st1, iterationLoop env w rpi depth fuel n iter st = .ok st1 ∧
        st1.appended.length = st.appended.length + n * rpi.toNat ∧
        st1.replyCalls = st.replyCalls + n * rpi.toNat ∧
        st1.cout.length = st.cout.length + n := by
  intro n
  induction n with
  | zero => intro iter st; exact ⟨st, rfl, by simp, by simp, by simp⟩
  | succ n ih =>
    intro iter st
    obtain ⟨st1, h1, ha1, hr1, ho1⟩ := batchLoop_completes env w rpi depth hd hno hpay fuel 0
      { st with cout := st.cout ++ ["Iteration: " ++ toString (iter + 1)] } (by simpa using hfuel)
    obtain ⟨st2, h2, ha2, hr2, ho2⟩ := ih (iter + 1) st1
    refine ⟨st2, by simp only [iterationLoop, h1, h2], ?_, ?_, ?_⟩
    · rw [ha2, ha1]; simp only [sub_zero]; rw [Nat.add_mul]; omega
    · rw [hr2, hr1]; simp only [sub_zero]; rw [Nat.add_mul]; omega
    · rw [ho2, ho1]; simp; omega

/-- For pipeline depth and iterations at least 1, a non-negative number of
requests, and `requestsPerIteration + pipelineDepth` within the range of `int`, a worker
whose replies carry their payload ends (given fuel for the batches of one iteration) after
composing and draining exactly `iterations * (totalRequests / iterations)` commands, having
announced each iteration once. -/
theorem worker_done_after_all_commands (env : Env) (fuel : Nat)
    (totalRequests pipelineDepth : Int) (writeRatio : Double) (iterations : Int)
    (hdepth : 1 ≤ pipelineDepth) (hiter : 1 ≤ iterations) (htotal : 0 ≤ totalRequests)
    (hno : Int.tdiv totalRequests iterations + pipelineDepth ≤ INT_MAX + 1)
    (hpay : ∀ k reply, env.redisGetReply k = some reply → reply.hasPayload)
    (hfuel : (Int.tdiv totalRequests iterations).toNat < fuel) :
    ∃ st, redisWorker env fuel totalRequests pipelineDepth writeRatio iterations = .ok st ∧
      st.appended.length = (iterations * Int.tdiv totalRequests iterations).toNat ∧
      st.replyCalls = (iterations * Int.tdiv totalRequests iterations).toNat ∧
      st.cout.length = iterations.toNat := by
  have hq : 0 ≤ Int.tdiv totalRequests iterations := Int.tdiv_nonneg htotal (by omega)
  obtain ⟨st, h, ha, hr, ho⟩ := iterationLoop_completes env writeRatio
    (Int.tdiv totalRequests iterations) pipelineDepth hdepth hno hpay fuel hfuel
    iterations.toNat 0 Worker.init
  have hmul : (iterations * Int.tdiv totalRequests iterations).toNat =
      iterations.toNat * (Int.tdiv totalRequests iterations).toNat := by
    have hcast : iterations * Int.tdiv totalRequests iterations =
        ((iterations.toNat * (Int.tdiv totalRequests iterations).toNat : Nat) : Int) := by
      push_cast
      rw [Int.toNat_of_nonneg (by omega), Int.toNat_of_nonneg hq]
    rw [hcast]
    exact Int.toNat_ofNat _
  refine ⟨st, ?_, ?_, ?_, ?_⟩
  · unfold redisWorker
    rw [if_neg (by omega), if_neg (by omega)]
    exact h
  · rw [ha, hmul]; simp [Worker.init]
  · rw [hr, hmul]; simp [Worker.init]
  · rw [ho]; simp [Worker.init]

theorem batchLoop_overflows (env : Env) (w : Double) (rpi depth : Int) (hd : 1 ≤ depth)
    (hpay : ∀ k reply, env.redisGetReply k = some reply → reply.hasPayload) :
    ∀ (fuel : Nat) (k : Nat) (i : Int) (st : Worker), (rpi - i).toNat < fuel →
      i + k * depth < rpi → INT_MAX < i + (k + 1) * depth →
      batchLoop env w rpi depth fuel i st = .error .signedOverflow := by
  intro fuel
  induction fuel with
  | zero => intro k i st h; omega
  | succ fuel ih =>
    intro k i st hfuel hk1 hk2
    have hkd : 0 ≤ (k : Int) * depth := by positivity
    have hi : i < rpi := by omega
    have hb0 : ¬ min depth (rpi - i) < 0 := by omega
    obtain ⟨st1, cmds, st2, hc, _, hdr, _, _, _⟩ :=
      batch_round_ok env w (min depth (rpi - i)).toNat st hpay
    unfold batchLoop
    rw [if_pos hi]
    simp only [hb0, if_false, hc, hdr]
    by_cases hmax : INT_MAX < i + depth
    · rw [if_pos hmax]
    · rw [if_neg hmax]
      cases k with
      | zero => simp at hk2; omega
      | succ k =>
        push_cast at hk1 hk2
        exact ih k (i + depth) st2 (by omega) (by linarith) (by linarith)

/-- A round of the batching loop that is followed by a final state, for a pipeline depth of
at least 1: it composes and drains a batch of between 1 and `pipelineDepth` commands, of
exactly `pipelineDepth` commands unless it is the last round. -/
theorem batchLoop_round (env : Env) (w : Double) (rpi depth : Int) (fuel : Nat) (i : Int)
    (st st1 : Worker) (hd : 1 ≤ depth) (hi : i < rpi)
    (h : batchLoop env w rpi depth (fuel + 1) i st = .ok st1) :
    ∃ st2 cmds st3,
      composeLoop env w cmds.length st [] = .ok (st2, cmds) ∧
      drainLoop env cmds cmds.length 0 st2 = .ok st3 ∧
      1 ≤ cmds.length ∧ (cmds.length : Int) ≤ depth ∧
      (i + depth < rpi → (cmds.length : Int) = depth) ∧
      (cmds.length : Int) = min depth (rpi - i) ∧
      batchLoop env w rpi depth fuel (i + depth) st3 = .ok st1 := by
  rcases batchLoop_ok_inv env w rpi depth fuel i st st1 h with ⟨hn, _⟩ |
    ⟨_, h0, _, st2, cmds, st3, hc, hdr, hb⟩
  · exact absurd hi hn
  · obtain ⟨st2a, cmdsa, hca, hla⟩ := composeLoop_total env w (min depth (rpi - i)).toNat st []
    rw [hc] at hca
    cases hca
    have hlen : cmds.length = (min depth (rpi - i)).toNat := by simpa using hla
    refine ⟨st2, cmds, st3, by rw [hlen]; exact hc, by rw [hlen]; exact hdr, ?_, ?_, ?_, ?_, hb⟩
    · omega
    · omega
    · intro hnext; omega
    · omega

set_option maxRecDepth 100000 in
/-- Five requests in two iterations with pipeline depth 2 against a store that acknowledges
everything: each iteration runs `5 / 2 = 2` commands, four commands in all. -/
theorem worker_done_after_all_commands_example :
    ∃ st, redisWorker tickingEnv 3 5 2 Double.one 2 = .ok st ∧
      st.appended.length = 4 ∧ st.replyCalls = 4 ∧ st.cout.length = 2 := by
  have hpay : ∀ k reply, tickingEnv.redisGetReply k = some reply → reply.hasPayload := by
    intro k reply h
    simp only [tickingEnv, Option.some.injEq] at h
    subst h
    decide
  exact worker_done_after_all_commands tickingEnv 3 5 2 Double.one 2 (by decide) (by decide)
    (by decide) (by decide) hpay (by decide)

/-- C10, failing input: with `totalRequests = 2147483647`, `pipelineDepth = 2` and
`iterations = 1` (pipeline depth and iterations at least 1, total requests non-negative) the
worker never ends in a final state, whatever its environment and however much fuel the
model is given: after the last batch `i += pipelineDepth` leaves the range of `int`, which
is where the run ends when the store acknowledges every command. -/
theorem worker_never_done_when_batch_counter_overflows :
    (∀ (env : Env) (fuel : Nat) (writeRatio : Double) (st : Worker),
      redisWorker env fuel 2147483647 2 writeRatio 1 ≠ .ok st) ∧
    (∀ writeRatio : Double,
      redisWorker tickingEnv 2147483648 2147483647 2 writeRatio 1 =
        .error .signedOverflow) := by
  have h1 : (1 : Int).toNat = 1 := rfl
  have h2 : Int.tdiv 2147483647 1 = 2147483647 := by decide
  refine ⟨fun env fuel writeRatio st h => ?_, fun writeRatio => ?_⟩
  · unfold redisWorker at h
    rw [if_neg (by decide), if_neg (by decide), h1, h2] at h
    unfold iterationLoop at h
    cases hb : batchLoop env writeRatio 2147483647 2 fuel 0
        { Worker.init with cout := Worker.init.cout ++ ["Iteration: " ++ toString (0 + 1)] } with
    | error e => rw [hb] at h; cases h
    | ok st2 =>
      obtain ⟨k, hk1, hk2⟩ := batchLoop_ok_exit env writeRatio 2147483647 2 fuel 0 _
        st2 (by decide) hb
      unfold INT_MAX at hk2
      omega
  · have hpay : ∀ k reply, tickingEnv.redisGetReply k = some reply → reply.hasPayload := by
      intro k reply h
      simp only [tickingEnv, Option.some.injEq] at h
      subst h
      decide
    have hb := batchLoop_overflows tickingEnv writeRatio 2147483647 2 (by decide) hpay
      2147483648 1073741823 0
      { Worker.init with cout := Worker.init.cout ++ ["Iteration: " ++ toString (0 + 1)] }
      (by decide) (by decide) (by decide)
    unfold redisWorker
    rw [if_neg (by decide), if_neg (by decide), h1, h2]
    unfold iterationLoop
    rw [hb]

end DataIntegrity
